import Mathlib

set_option maxHeartbeats 1000000

/-!
Shallow embedding of `src/codigo.py` (an AVL tree with insertion, deletion,
search, k-th-largest order statistic and pre-order display), together with
theorems settling the specification claims about it.

Python `None` / `No` objects are embedded as one inductive type: `No.nulo`
models `None`, `No.no` models an instance of the dataclass `No` with its
fields `chave`, `esquerda`, `direita`, `altura_atributo`.  Keys are embedded
as `Int` (the code is generic over a totally ordered key type).  Functions
that can raise an `AttributeError` in Python (an attribute access on `None`)
return `Option`: `none` is the raised exception, `some` a normal return.
-/

/-- The dataclass `No` together with Python `None`: `nulo` is `None`, and
`no chave esquerda direita altura_atributo` is a `No` instance. -/
inductive No where
  | nulo : No
  | no (chave : Int) (esquerda : No) (direita : No) (altura_atributo : Int) : No
deriving Repr, DecidableEq

/-- Lines 41-60, `altura`: recursively computed height, `-1` for `None`. -/
def altura : No → Int
  | .nulo => -1
  | .no _ e d _ => 1 + max (altura e) (altura d)

/-- Lines 62-82, `fator_balanceamento`: `altura esquerda - altura direita`,
`0` for `None`. -/
def fator_balanceamento : No → Int
  | .nulo => 0
  | .no _ e d _ => altura e - altura d

/-- Lines 84-114, `rotacao_direita`.  The two `none` branches model the
`AttributeError` raised when `no_raiz` or `no_centro = no_raiz.esquerda`
is `None` (never exercised by correct callers). -/
def rotacao_direita : No → Option No
  | .nulo => none
  | .no _ .nulo _ _ => none
  | .no c (.no cc ce cd _) d _ =>
    let no_raiz := No.no c cd d (1 + max (altura cd) (altura d))
    some (.no cc ce no_raiz (1 + max (altura ce) (altura no_raiz)))

/-- Lines 116-145, `rotacao_esquerda`, the mirror image. -/
def rotacao_esquerda : No → Option No
  | .nulo => none
  | .no _ _ .nulo _ => none
  | .no c e (.no cc ce cd _) _ =>
    let no_raiz := No.no c e ce (1 + max (altura e) (altura ce))
    some (.no cc no_raiz cd (1 + max (altura no_raiz) (altura cd)))

/-- Lines 189-206 of `_insere`: after the recursive call has produced the
children `e` and `d`, update `no.altura_atributo`, compute the balance
factor and rebalance.  The `none` branches model the `AttributeError` on
`no.esquerda.chave` / `no.direita.chave` when that child is `None`, and
crashes propagated out of the rotations. -/
def insereRebalance (c : Int) (e d : No) (chave : Int) : Option No :=
  let alt := 1 + max (altura e) (altura d)
  let balanceamento := fator_balanceamento (.no c e d alt)
  if balanceamento > 1 then
    match e with
    | .nulo => none
    | .no ec _ _ _ =>
      if chave < ec then rotacao_direita (.no c e d alt)
      else
        match rotacao_esquerda e with
        | none => none
        | some e2 => rotacao_direita (.no c e2 d alt)
  else if balanceamento < -1 then
    match d with
    | .nulo => none
    | .no dc _ _ _ =>
      if chave > dc then rotacao_esquerda (.no c e d alt)
      else
        match rotacao_direita d with
        | none => none
        | some d2 => rotacao_esquerda (.no c e d2 alt)
  else some (.no c e d alt)

/-- Lines 175-206, `_insere`: at `None` create `No(chave)` (whose
`altura_atributo` defaults to `1`), otherwise descend left when
`chave < no.chave` and right otherwise, then rebalance on the unwind. -/
def _insere : No → Int → Option No
  | .nulo, chave => some (.no chave .nulo .nulo 1)
  | .no c e d _, chave =>
    if chave < c then
      match _insere e chave with
      | none => none
      | some e1 => insereRebalance c e1 d chave
    else
      match _insere d chave with
      | none => none
      | some d1 => insereRebalance c e d1 chave

/-- Lines 148-173, `insere`: `self.raiz = self._insere(self.raiz, chave)`. -/
def insere (raiz : No) (chave : Int) : Option No :=
  _insere raiz chave

/-- Lines 353-362, `__minimo`: follow `esquerda` links; `none` models the
`AttributeError` raised when the argument is `None`. -/
def __minimo : No → Option No
  | .nulo => none
  | .no c e d h =>
    match e with
    | .nulo => some (.no c e d h)
    | .no _ _ _ _ => __minimo e

/-- Lines 340-351 of `__sucessor`: the `while` loop descending from the
tree root, tracking the lowest ancestor whose key exceeds `chaveNo`. -/
def sucessorDescida (chaveNo : Int) : No → Option No → Option No
  | .nulo, sucessor => sucessor
  | .no c e d h, sucessor =>
    if chaveNo < c then sucessorDescida chaveNo e (some (.no c e d h))
    else if chaveNo > c then sucessorDescida chaveNo d sucessor
    else sucessor

/-- Lines 312-351, `__sucessor`: takes the current `self.raiz` explicitly
(the Python method reads it from the object). -/
def __sucessor (raiz : No) (no : No) : Option No :=
  match no with
  | .nulo => none
  | .no c _ d _ =>
    match d with
    | .no _ _ _ _ => __minimo d
    | .nulo => sucessorDescida c raiz none

/-- One step of the path from `self.raiz` to the subtree `_remove` is
currently working on: the field values of the parent node minus the child
descended into.  Because the Python code mutates nodes in place and
overwrites `no.chave` (line 252) *before* the recursive call on line 253,
the key stored in a crumb is the parent's key at the time of the call. -/
inductive Crumb where
  | esq (chave : Int) (direita : No) (altura_atributo : Int) : Crumb
  | dir (chave : Int) (esquerda : No) (altura_atributo : Int) : Crumb
deriving Repr, DecidableEq

/-- Rebuild the tree visible from `self.raiz` out of the context (innermost
crumb first) and the current subtree. -/
def plug : List Crumb → No → No
  | [], t => t
  | Crumb.esq c d h :: ctx, t => plug ctx (.no c t d h)
  | Crumb.dir c e h :: ctx, t => plug ctx (.no c e t h)

/-- Lines 254-273 of `_remove`: height update and rebalancing on the
unwind (the tie-break inspects the child's balance factor). -/
def removeRebalance (c : Int) (e d : No) : Option No :=
  let alt := 1 + max (altura e) (altura d)
  let balanceamento := fator_balanceamento (.no c e d alt)
  if balanceamento > 1 then
    if fator_balanceamento e ≥ 0 then rotacao_direita (.no c e d alt)
    else
      match rotacao_esquerda e with
      | none => none
      | some e2 => rotacao_direita (.no c e2 d alt)
  else if balanceamento < -1 then
    if fator_balanceamento d ≤ 0 then rotacao_esquerda (.no c e d alt)
    else
      match rotacao_direita d with
      | none => none
      | some d2 => rotacao_esquerda (.no c e d2 alt)
  else some (.no c e d alt)

/-- Lines 233-273, `_remove`.  `ctx` records the path from `self.raiz` so
that `__sucessor` can be handed the tree the object currently holds.  The
result `none` models an uncaught `AttributeError`; in particular the
wildcard of the innermost match is `temp = None`, where line 252
(`no.chave = temp.chave`) raises.  On a key match with both children
present the code asks for the successor *of the right child* and copies
that key before removing it from the right subtree. -/
def _remove : List Crumb → No → Int → Option No
  | _, .nulo, _ => some .nulo
  | ctx, .no c e d h, chave =>
    if chave < c then
      match _remove (Crumb.esq c d h :: ctx) e chave with
      | none => none
      | some e1 => removeRebalance c e1 d
    else if chave > c then
      match _remove (Crumb.dir c e h :: ctx) d chave with
      | none => none
      | some d1 => removeRebalance c e d1
    else
      match e with
      | .nulo => some d
      | .no _ _ _ _ =>
        match d with
        | .nulo => some e
        | .no _ _ _ _ =>
          match __sucessor (plug ctx (.no c e d h)) d with
          | some (.no tc _ _ _) =>
            match _remove (Crumb.dir tc e h :: ctx) d tc with
            | none => none
            | some d1 => removeRebalance tc e d1
          | _ => none

/-- Lines 209-231, `remove`: `self.raiz = self._remove(self.raiz, chave)`;
`none` is an uncaught exception. -/
def remove (raiz : No) (chave : Int) : Option No :=
  _remove [] raiz chave

/-- Lines 301-308, `_buscar`: standard descent, returning the node
(`nulo` for Python `None`). -/
def _buscar : No → Int → No
  | .nulo, _ => .nulo
  | .no c e d h, elemento =>
    if c = elemento then .no c e d h
    else if elemento < c then _buscar e elemento
    else _buscar d elemento

/-- Lines 276-299, `buscar`. -/
def buscar (raiz : No) (elemento : Int) : No :=
  _buscar raiz elemento

/-- Lines 28-39, `vazia`. -/
def vazia : No → Bool
  | .nulo => true
  | .no _ _ _ _ => false

/-- Lines 406-427, `_k_esimo_maior`: the mutable pair
`(self.contador, self.resultado)` is threaded as explicit state. -/
def _k_esimo_maior : No → Int → Int × Option Int → Int × Option Int
  | .nulo, _, st => st
  | .no c e d _, k, st =>
    if st.1 ≥ k then st
    else
      let st1 := _k_esimo_maior d k st
      if st1.1 < k then
        if st1.1 + 1 = k then (st1.1 + 1, some c)
        else _k_esimo_maior e k (st1.1 + 1, st1.2)
      else st1

/-- Lines 365-403, `k_esimo_maior`: reset `contador = 0`,
`resultado = None`, run the traversal, return `resultado`. -/
def k_esimo_maior (raiz : No) (k : Int) : Option Int :=
  (_k_esimo_maior raiz k (0, none)).2

/-- Lines 451-460, `_exibe_pre_ordem`: `(chave esquerda direita)` with
absent children omitted. -/
def _exibe_pre_ordem : No → String
  | .nulo => ""
  | .no c e d _ =>
    "(" ++ toString c
      ++ (match e with
          | .nulo => ""
          | .no _ _ _ _ => " " ++ _exibe_pre_ordem e)
      ++ (match d with
          | .nulo => ""
          | .no _ _ _ _ => " " ++ _exibe_pre_ordem d)
      ++ ")"

/-- Lines 430-449, `exibe_pre_ordem`. -/
def exibe_pre_ordem (raiz : No) : String :=
  _exibe_pre_ordem raiz

/-- A public mutating call on the `ArvoreAVL` object. -/
inductive Op where
  | insereOp (chave : Int) : Op
  | removeOp (chave : Int) : Op
deriving Repr, DecidableEq

/-- Apply one public call to the current root. -/
def aplicaOp (raiz : No) : Op → Option No
  | .insereOp c => insere raiz c
  | .removeOp c => remove raiz c

/-- Run a sequence of calls; an uncaught exception aborts the run. -/
def aplicaOpsAux : No → List Op → Option No
  | raiz, [] => some raiz
  | raiz, op :: ops =>
    match aplicaOp raiz op with
    | none => none
    | some r => aplicaOpsAux r ops

/-- The tree produced from the empty tree (`ArvoreAVL()`) by a finite
sequence of `insere`/`remove` calls, or `none` if a call raised. -/
def aplicaOps (ops : List Op) : Option No :=
  aplicaOpsAux .nulo ops

/-- In-order traversal of the stored keys. -/
def emOrdem : No → List Int
  | .nulo => []
  | .no c e d _ => emOrdem e ++ c :: emOrdem d

/-- Number of nodes. -/
def tamanho : No → Nat
  | .nulo => 0
  | .no _ e d _ => tamanho e + tamanho d + 1

/-- Key at the root, if any. -/
def chaveRaiz : No → Option Int
  | .nulo => none
  | .no c _ _ _ => some c

/-- Right subtree (Python `no.direita`, with `nulo` for `None`). -/
def direitaDe : No → No
  | .nulo => .nulo
  | .no _ _ d _ => d

/-- Invariant 2 of the spec: every node's balance
`altura esquerda - altura direita` (its `fator_balanceamento`) lies in
`[-1, 1]`. -/
def Balanceada : No → Prop
  | .nulo => True
  | .no _ e d _ =>
    -1 ≤ altura e - altura d ∧ altura e - altura d ≤ 1 ∧
    Balanceada e ∧ Balanceada d

/-- Invariant 3 of the spec, as claimed: every node's cached
`altura_atributo` equals `1 + max` of its children's heights. -/
def AlturaCorreta : No → Prop
  | .nulo => True
  | .no _ e d h =>
    h = 1 + max (altura e) (altura d) ∧ AlturaCorreta e ∧ AlturaCorreta d

/-- The cache discipline the code actually maintains: a node with at least
one child carries the recomputed `1 + max` value, while a leaf carries
either `0` (written on an unwind while childless) or `1` (the dataclass
default of a fresh `No(chave)`). -/
def CacheInv : No → Prop
  | .nulo => True
  | .no _ e d h =>
    ((e = .nulo ∧ d = .nulo) → h = 0 ∨ h = 1) ∧
    (¬(e = .nulo ∧ d = .nulo) → h = 1 + max (altura e) (altura d)) ∧
    CacheInv e ∧ CacheInv d

/-- Same shape and keys, cached heights allowed to differ. -/
def mesmaForma : No → No → Prop
  | .nulo, .nulo => True
  | .no c e d _, .no c' e' d' _ => c = c' ∧ mesmaForma e e' ∧ mesmaForma d d'
  | _, _ => False

instance decBalanceada : (t : No) → Decidable (Balanceada t)
  | .nulo => .isTrue trivial
  | .no c e d h =>
    letI := decBalanceada e
    letI := decBalanceada d
    inferInstanceAs (Decidable (_ ∧ _ ∧ _ ∧ _))

instance decAlturaCorreta : (t : No) → Decidable (AlturaCorreta t)
  | .nulo => .isTrue trivial
  | .no c e d h =>
    letI := decAlturaCorreta e
    letI := decAlturaCorreta d
    inferInstanceAs (Decidable (_ ∧ _ ∧ _))

instance decCacheInv : (t : No) → Decidable (CacheInv t)
  | .nulo => .isTrue trivial
  | .no c e d h =>
    letI := decCacheInv e
    letI := decCacheInv d
    inferInstanceAs (Decidable (_ ∧ _ ∧ _ ∧ _))

/-! ## Concrete program states used by the claims -/

/-- The five inserts `10, 5, 20, 15, 25` (all distinct, no rebalancing
corner cases); the resulting tree is the AVL tree below. -/
def opsExemplo : List Op :=
  [.insereOp 10, .insereOp 5, .insereOp 20, .insereOp 15, .insereOp 25]

/-- The tree produced by `opsExemplo`. -/
def arvoreExemplo : No :=
  .no 10 (.no 5 .nulo .nulo 1)
    (.no 20 (.no 15 .nulo .nulo 1) (.no 25 .nulo .nulo 1) 1) 2

/-- The state after `opsExemplo` followed by `remove 10`. -/
def arvoreQuebrada : No :=
  .no 25 (.no 5 .nulo .nulo 1)
    (.no 20 (.no 15 .nulo .nulo 1) .nulo 1) 2

theorem aplicaOps_opsExemplo : aplicaOps opsExemplo = some arvoreExemplo := by
  decide

/-! ## C1 -/

/-- C1: refuted on the code.  In the both-children deletion case the code
computes `__sucessor(no.direita)` — the in-order successor *of the right
child* — not the leftmost node of the matched node's right subtree.  On the
tree built by inserting `10, 5, 20, 15, 25`, deleting `10` should copy key
`15` (the leftmost node of the right subtree `20(15, 25)`), but the code
copies the key `25` into the matched node. -/
theorem remove_copia_chave_errada :
    aplicaOps opsExemplo = some arvoreExemplo ∧
    (__minimo (direitaDe arvoreExemplo)).map chaveRaiz = some (some 15) ∧
    remove arvoreExemplo 10 = some arvoreQuebrada ∧
    chaveRaiz arvoreQuebrada = some 25 ∧ (25 : Int) ≠ 15 := by
  decide

/-! ## C2 -/

/-- C2: refuted on the code.  The sequence insert `10, 5, 20, 15, 25` then
delete `10` is a finite sequence of public calls whose resulting tree has
in-order traversal `[5, 25, 15, 20]`, which is not non-decreasing: the
wrong successor copy of `remove` breaks the binary-search-tree order. -/
theorem emOrdem_nao_ordenada :
    aplicaOps (opsExemplo ++ [.removeOp 10]) = some arvoreQuebrada ∧
    emOrdem arvoreQuebrada = [5, 25, 15, 20] ∧
    ¬ List.Sorted (· ≤ ·) (emOrdem arvoreQuebrada) := by
  refine ⟨by decide, by decide, ?_⟩
  decide

/-! ## C3 -/

/-- The AVL tree built by inserting `10, 5, 20, 15`. -/
def arvoreQuatro : No :=
  .no 10 (.no 5 .nulo .nulo 1) (.no 20 (.no 15 .nulo .nulo 1) .nulo 1) 2

/-- C3: refuted on the code.  On the invariant-satisfying tree built by
inserting `10, 5, 20, 15`, deleting the present key `10` reaches the
both-children case, `__sucessor(no.direita)` returns `None` (the right
child `20` holds the maximum key of the tree), and line 252
(`no.chave = temp.chave`) dereferences `None`: the claimed-unreachable
error branch raises an `AttributeError`. -/
theorem remove_dereferencia_nulo :
    aplicaOps [.insereOp 10, .insereOp 5, .insereOp 20, .insereOp 15] =
      some arvoreQuatro ∧
    Balanceada arvoreQuatro ∧ List.Sorted (· ≤ ·) (emOrdem arvoreQuatro) ∧
    remove arvoreQuatro 10 = none := by
  refine ⟨by decide, by decide, by decide, by decide⟩

/-! ## C7 -/

/-- The tree produced by inserting `10, 5, 20, 15, 25, 20`: the node with
key `20` has balance factor `-2`. -/
def arvoreDesbalanceada : No :=
  .no 15 (.no 10 (.no 5 .nulo .nulo 1) .nulo 1)
    (.no 20 .nulo (.no 25 (.no 20 .nulo .nulo 1) .nulo 1) 2) 3

/-- C7: refuted on the code.  Inserting `10, 5, 20, 15, 25` and then the
duplicate key `20` is a finite sequence of insert calls after which the
node with key `20` has `fator_balanceamento = -2`: the insertion tie-break
(`chave > no.direita.chave`, strict) disagrees with the descent rule
(`chave < no.chave` goes left, ties go right), so the duplicate triggers
the wrong rotation pair and leaves the tree unbalanced. -/
theorem insere_duplicata_desbalanceia :
    aplicaOps (opsExemplo ++ [.insereOp 20]) = some arvoreDesbalanceada ∧
    fator_balanceamento (direitaDe arvoreDesbalanceada) = -2 ∧
    ¬ Balanceada arvoreDesbalanceada := by
  refine ⟨by decide, by decide, ?_⟩
  decide

/-! ## C8 -/

/-- C8: refuted on the code.  Inserting `10`, then `20`, then the duplicate
`20` does not add a third node: the unwind at the root sees balance `-2`,
the tie-break `chave > no.direita.chave` is false for the equal key, the
code calls `rotacao_direita` on the right child `20` whose `esquerda` is
`None`, and `no_centro.direita` raises an `AttributeError`. -/
theorem insere_duplicata_levanta_excecao :
    aplicaOps [.insereOp 10, .insereOp 20] =
      some (.no 10 .nulo (.no 20 .nulo .nulo 1) 1) ∧
    insere (.no 10 .nulo (.no 20 .nulo .nulo 1) 1) 20 = none := by
  decide

/-! ## C10 -/

/-- C10: confirmed.  On the empty tree (`self.raiz = None`) the pre-order
display returns the empty string: no parentheses, no whitespace. -/
theorem exibe_pre_ordem_vazia : exibe_pre_ordem No.nulo = "" := rfl

/-! ## C4, counterexample -/

/-- C4: the stated cache invariant fails.  After the single public call
`insere 10` the tree is one newly created leaf whose cached
`altura_atributo` is the dataclass default `1`, while
`1 + max(height(left), height(right)) = 1 + max(-1, -1) = 0`. -/
theorem cache_de_folha_nova_nao_e_zero :
    aplicaOps [.insereOp 10] = some (.no 10 .nulo .nulo 1) ∧
    ¬ AlturaCorreta (.no 10 .nulo .nulo 1) ∧
    (1 : Int) ≠ 1 + max (altura .nulo) (altura .nulo) := by
  refine ⟨by decide, by decide, by decide⟩

/-! ## C5, counterexample -/

/-- C5: refuted on the code.  `altura` is a recursive recomputation, not a
reader of the cache: on the tree produced by the single call `insere 10`
(a state the code itself maintains) it returns the true height `0` of the
root while the root's cached `altura_atributo` is `1`. -/
theorem altura_nao_le_o_cache :
    aplicaOps [.insereOp 10] = some (.no 10 .nulo .nulo 1) ∧
    altura (.no 10 .nulo .nulo 1) = 0 ∧ (0 : Int) ≠ 1 := by
  decide

/-! ## C5, amended claim -/

/-- C5 as amended: the height oracle returns `-1` for an absent node, and
for a present node it *recomputes* `1 + max` of the children's heights
recursively, ignoring the cached field; it agrees with the cached
`altura_atributo` exactly on nodes whose subtree satisfies the
height-correctness invariant. -/
theorem altura_recalcula_recursivamente :
    altura .nulo = -1 ∧
    (∀ (c h : Int) (e d : No),
      altura (.no c e d h) = 1 + max (altura e) (altura d)) ∧
    (∀ (c h : Int) (e d : No), AlturaCorreta (.no c e d h) →
      altura (.no c e d h) = h) := by
  refine ⟨rfl, fun c h e d => rfl, fun c h e d hcor => ?_⟩
  obtain ⟨hh, -, -⟩ := hcor
  rw [hh]
  rfl

/-- Closed instance of `altura_recalcula_recursivamente` discharging its
height-correctness hypothesis on a concrete node. -/
theorem altura_recalcula_recursivamente_witness :
    altura (.no 10 .nulo .nulo 0) = 0 :=
  altura_recalcula_recursivamente.2.2 10 0 .nulo .nulo (by decide)

/-! ## Structural no-op lemmas for deletion of an absent key (C9) -/

theorem mesmaForma_refl : ∀ t : No, mesmaForma t t := by
  intro t
  induction t with
  | nulo => trivial
  | no c e d h ihe ihd => exact ⟨rfl, ihe, ihd⟩

theorem mesmaForma_nulo_iff : ∀ t t' : No, mesmaForma t t' →
    (t = .nulo ↔ t' = .nulo) := by
  intro t t' hm
  cases t <;> cases t' <;> simp_all [mesmaForma]

theorem mesmaForma_altura : ∀ t t' : No, mesmaForma t t' →
    altura t = altura t' := by
  intro t
  induction t with
  | nulo =>
    intro t' hm
    cases t' with
    | nulo => rfl
    | no => exact absurd hm (by simp [mesmaForma])
  | no c e d h ihe ihd =>
    intro t' hm
    cases t' with
    | nulo => exact absurd hm (by simp [mesmaForma])
    | no c' e' d' h' =>
      obtain ⟨-, hme, hmd⟩ := hm
      simp only [altura, ihe e' hme, ihd d' hmd]

/-- The conditional append for one child in `_exibe_pre_ordem`, as an
`if` on nullity. -/
theorem exibe_filho_eq (e : No) :
    (match e with
     | No.nulo => ""
     | No.no _ _ _ _ => " " ++ _exibe_pre_ordem e) =
    (if e = .nulo then "" else " " ++ _exibe_pre_ordem e) := by
  cases e <;> simp

theorem mesmaForma_exibe : ∀ t t' : No, mesmaForma t t' →
    _exibe_pre_ordem t = _exibe_pre_ordem t' := by
  intro t
  induction t with
  | nulo =>
    intro t' hm
    cases t' with
    | nulo => rfl
    | no => exact absurd hm (by simp [mesmaForma])
  | no c e d h ihe ihd =>
    intro t' hm
    cases t' with
    | nulo => exact absurd hm (by simp [mesmaForma])
    | no c' e' d' h' =>
      obtain ⟨hc, hme, hmd⟩ := hm
      subst hc
      simp only [_exibe_pre_ordem]
      rw [exibe_filho_eq e, exibe_filho_eq e', exibe_filho_eq d,
        exibe_filho_eq d', ihe e' hme, ihd d' hmd,
        if_congr (mesmaForma_nulo_iff e e' hme) rfl rfl,
        if_congr (mesmaForma_nulo_iff d d' hmd) rfl rfl]

/-- Removing a key that is not stored anywhere in a balanced subtree
returns normally and leaves structure and keys unchanged (only cached
heights are rewritten on the unwind). -/
theorem _remove_ausente : ∀ (t : No) (ctx : List Crumb) (chave : Int),
    Balanceada t → chave ∉ emOrdem t →
    ∃ t', _remove ctx t chave = some t' ∧ mesmaForma t t' := by
  intro t
  induction t with
  | nulo => exact fun ctx chave _ _ => ⟨.nulo, rfl, trivial⟩
  | no c e d h ihe ihd =>
    intro ctx chave hb hne
    obtain ⟨hb1, hb2, hbe, hbd⟩ := hb
    have hsplit : chave ≠ c ∧ chave ∉ emOrdem e ∧ chave ∉ emOrdem d := by
      simp only [emOrdem, List.mem_append, List.mem_cons] at hne
      exact ⟨fun hcc => hne (Or.inr (Or.inl hcc)),
        fun hh => hne (Or.inl hh), fun hh => hne (Or.inr (Or.inr hh))⟩
    obtain ⟨hnc, hnee, hned⟩ := hsplit
    rcases lt_trichotomy chave c with hlt | heq | hgt
    · obtain ⟨e', he', hme⟩ := ihe (Crumb.esq c d h :: ctx) chave hbe hnee
      have hae : altura e' = altura e := (mesmaForma_altura _ _ hme).symm
      refine ⟨.no c e' d (1 + max (altura e') (altura d)), ?_, rfl, hme,
        mesmaForma_refl d⟩
      simp only [_remove]
      rw [if_pos hlt, he']
      simp only [removeRebalance, fator_balanceamento, hae]
      rw [if_neg (by omega), if_neg (by omega)]
    · exact absurd heq hnc
    · obtain ⟨d', hd', hmd⟩ := ihd (Crumb.dir c e h :: ctx) chave hbd hned
      have had : altura d' = altura d := (mesmaForma_altura _ _ hmd).symm
      refine ⟨.no c e d' (1 + max (altura e) (altura d')), ?_, rfl,
        mesmaForma_refl e, hmd⟩
      simp only [_remove]
      rw [if_neg (by omega), if_pos hgt, hd']
      simp only [removeRebalance, fator_balanceamento, had]
      rw [if_neg (by omega), if_neg (by omega)]

/-! ## C9 -/

/-- C9: confirmed.  On a tree satisfying the invariants, deleting a key
stored nowhere in the tree returns normally (no exception) and is a
no-op observable through `exibe_pre_ordem`: the pre-order text is
unchanged. -/
theorem remove_chave_ausente_noop (t : No) (chave : Int)
    (hord : List.Sorted (· ≤ ·) (emOrdem t)) (hbal : Balanceada t)
    (habs : chave ∉ emOrdem t) :
    (remove t chave).map exibe_pre_ordem = some (exibe_pre_ordem t) := by
  obtain ⟨t', ht', hm⟩ := _remove_ausente t [] chave hbal habs
  rw [remove, ht', Option.map_some']
  exact congrArg some (mesmaForma_exibe t t' hm).symm

/-- Closed instance of `remove_chave_ausente_noop` on a concrete tree and
absent key. -/
theorem remove_chave_ausente_noop_witness :
    (remove (.no 10 (.no 5 .nulo .nulo 1) .nulo 1) 7).map exibe_pre_ordem =
      some (exibe_pre_ordem (.no 10 (.no 5 .nulo .nulo 1) .nulo 1)) :=
  remove_chave_ausente_noop _ 7 (by decide) (by decide) (by decide)

/-! ## Cache discipline preserved by every operation (C4) -/

/-- A node rebuilt with the recomputed `1 + max` cache satisfies the cache
discipline whenever its children do. -/
theorem cacheInv_recomputado (c : Int) (e d : No) (he : CacheInv e)
    (hd : CacheInv d) :
    CacheInv (.no c e d (1 + max (altura e) (altura d))) := by
  refine ⟨?_, fun _ => rfl, he, hd⟩
  rintro ⟨he0, hd0⟩
  subst he0
  subst hd0
  left
  decide

theorem rotacao_direita_cacheInv (c h : Int) (e d : No) (he : CacheInv e)
    (hd : CacheInv d) :
    ∀ t', rotacao_direita (.no c e d h) = some t' → CacheInv t' := by
  intro t' hrot
  cases e with
  | nulo => simp [rotacao_direita] at hrot
  | no cc ce cd hh =>
    obtain ⟨-, -, hce, hcd⟩ := he
    simp only [rotacao_direita, Option.some.injEq] at hrot
    subst hrot
    exact cacheInv_recomputado cc ce _ hce (cacheInv_recomputado c cd d hcd hd)

theorem rotacao_esquerda_cacheInv (c h : Int) (e d : No) (he : CacheInv e)
    (hd : CacheInv d) :
    ∀ t', rotacao_esquerda (.no c e d h) = some t' → CacheInv t' := by
  intro t' hrot
  cases d with
  | nulo => simp [rotacao_esquerda] at hrot
  | no cc ce cd hh =>
    obtain ⟨-, -, hce, hcd⟩ := hd
    simp only [rotacao_esquerda, Option.some.injEq] at hrot
    subst hrot
    exact cacheInv_recomputado cc _ cd (cacheInv_recomputado c e ce he hce) hcd

theorem insereRebalance_cacheInv (c : Int) (e d : No) (chave : Int)
    (he : CacheInv e) (hd : CacheInv d) :
    ∀ t', insereRebalance c e d chave = some t' → CacheInv t' := by
  intro t' h
  simp only [insereRebalance] at h
  split at h
  · cases e with
    | nulo => simp at h
    | no ec ee ed eh =>
      obtain ⟨-, -, hee, hed⟩ := id he
      simp only [] at h
      split at h
      · exact rotacao_direita_cacheInv c _ _ d he hd t' h
      · rcases hre : rotacao_esquerda (.no ec ee ed eh) with - | e2
        · rw [hre] at h
          simp at h
        · rw [hre] at h
          have he2 : CacheInv e2 :=
            rotacao_esquerda_cacheInv ec eh ee ed hee hed e2 hre
          exact rotacao_direita_cacheInv c _ e2 d he2 hd t' h
  · split at h
    · cases d with
      | nulo => simp at h
      | no dc de dd dh =>
        obtain ⟨-, -, hde, hdd⟩ := id hd
        simp only [] at h
        split at h
        · exact rotacao_esquerda_cacheInv c _ e _ he hd t' h
        · rcases hrd : rotacao_direita (.no dc de dd dh) with - | d2
          · rw [hrd] at h
            simp at h
          · rw [hrd] at h
            have hd2 : CacheInv d2 :=
              rotacao_direita_cacheInv dc dh de dd hde hdd d2 hrd
            exact rotacao_esquerda_cacheInv c _ e d2 he hd2 t' h
    · rw [Option.some.injEq] at h
      subst h
      exact cacheInv_recomputado c e d he hd

theorem removeRebalance_cacheInv (c : Int) (e d : No)
    (he : CacheInv e) (hd : CacheInv d) :
    ∀ t', removeRebalance c e d = some t' → CacheInv t' := by
  intro t' h
  simp only [removeRebalance] at h
  split at h
  · split at h
    · exact rotacao_direita_cacheInv c _ e d he hd t' h
    · cases e with
      | nulo =>
        rcases hre : rotacao_esquerda No.nulo with - | e2 <;> rw [hre] at h
        · simp at h
        · simp [rotacao_esquerda] at hre
      | no ec ee ed eh =>
        obtain ⟨-, -, hee, hed⟩ := id he
        rcases hre : rotacao_esquerda (.no ec ee ed eh) with - | e2
        · rw [hre] at h
          simp at h
        · rw [hre] at h
          have he2 : CacheInv e2 :=
            rotacao_esquerda_cacheInv ec eh ee ed hee hed e2 hre
          exact rotacao_direita_cacheInv c _ e2 d he2 hd t' h
  · split at h
    · split at h
      · exact rotacao_esquerda_cacheInv c _ e d he hd t' h
      · cases d with
        | nulo =>
          rcases hrd : rotacao_direita No.nulo with - | d2 <;> rw [hrd] at h
          · simp at h
          · simp [rotacao_direita] at hrd
        | no dc de dd dh =>
          obtain ⟨-, -, hde, hdd⟩ := id hd
          rcases hrd : rotacao_direita (.no dc de dd dh) with - | d2
          · rw [hrd] at h
            simp at h
          · rw [hrd] at h
            have hd2 : CacheInv d2 :=
              rotacao_direita_cacheInv dc dh de dd hde hdd d2 hrd
            exact rotacao_esquerda_cacheInv c _ e d2 he hd2 t' h
    · rw [Option.some.injEq] at h
      subst h
      exact cacheInv_recomputado c e d he hd

theorem _insere_cacheInv : ∀ (t : No) (chave : Int), CacheInv t →
    ∀ t', _insere t chave = some t' → CacheInv t' := by
  intro t
  induction t with
  | nulo =>
    intro chave _ t' h
    rw [_insere, Option.some.injEq] at h
    subst h
    exact ⟨fun _ => Or.inr rfl, fun hc => absurd ⟨rfl, rfl⟩ hc,
      trivial, trivial⟩
  | no c e d hh ihe ihd =>
    intro chave hInv t' h
    obtain ⟨-, -, he, hd⟩ := hInv
    simp only [_insere] at h
    split at h
    · rcases hrec : _insere e chave with - | e1
      · rw [hrec] at h
        simp at h
      · rw [hrec] at h
        exact insereRebalance_cacheInv c e1 d chave
          (ihe chave he e1 hrec) hd t' h
    · rcases hrec : _insere d chave with - | d1
      · rw [hrec] at h
        simp at h
      · rw [hrec] at h
        exact insereRebalance_cacheInv c e d1 chave he
          (ihd chave hd d1 hrec) t' h

theorem _remove_cacheInv : ∀ (t : No) (ctx : List Crumb) (chave : Int),
    CacheInv t → ∀ t', _remove ctx t chave = some t' → CacheInv t' := by
  intro t
  induction t with
  | nulo =>
    intro ctx chave _ t' h
    rw [_remove, Option.some.injEq] at h
    subst h
    trivial
  | no c e d hh ihe ihd =>
    intro ctx chave hInv t' h
    obtain ⟨-, -, he, hd⟩ := hInv
    simp only [_remove] at h
    split at h
    · rcases hrec : _remove (Crumb.esq c d hh :: ctx) e chave with - | e1
      · rw [hrec] at h
        simp at h
      · rw [hrec] at h
        exact removeRebalance_cacheInv c e1 d (ihe _ chave he e1 hrec) hd t' h
    · split at h
      · rcases hrec : _remove (Crumb.dir c e hh :: ctx) d chave with - | d1
        · rw [hrec] at h
          simp at h
        · rw [hrec] at h
          exact removeRebalance_cacheInv c e d1 he
            (ihd _ chave hd d1 hrec) t' h
      · cases e with
        | nulo =>
          rw [Option.some.injEq] at h
          subst h
          exact hd
        | no ec ee ed eh =>
          cases d with
          | nulo =>
            rw [Option.some.injEq] at h
            subst h
            exact he
          | no dc de dd dh =>
            simp only [] at h
            rcases hsuc : __sucessor
                (plug ctx (.no c (.no ec ee ed eh) (.no dc de dd dh) hh))
                (.no dc de dd dh) with - | temp
            · rw [hsuc] at h
              simp at h
            · rw [hsuc] at h
              cases temp with
              | nulo => simp at h
              | no tc te td th =>
                simp only [] at h
                rcases hrec : _remove (Crumb.dir tc (.no ec ee ed eh) hh :: ctx)
                    (.no dc de dd dh) tc with - | d1
                · rw [hrec] at h
                  simp at h
                · rw [hrec] at h
                  exact removeRebalance_cacheInv tc _ d1 he
                    (ihd _ tc hd d1 hrec) t' h

/-- Any tree invariant preserved by `insere` and `remove` holds for every
tree a sequence of public calls produces from the empty tree. -/
theorem aplicaOpsAux_preserva {P : No → Prop}
    (hi : ∀ r k t, P r → insere r k = some t → P t)
    (hr : ∀ r k t, P r → remove r k = some t → P t) :
    ∀ (ops : List Op) (r t : No), P r → aplicaOpsAux r ops = some t → P t := by
  intro ops
  induction ops with
  | nil =>
    intro r t hP h
    rw [aplicaOpsAux, Option.some.injEq] at h
    subst h
    exact hP
  | cons op ops ih =>
    intro r t hP h
    simp only [aplicaOpsAux] at h
    rcases hstep : aplicaOp r op with - | r1
    · rw [hstep] at h
      simp at h
    · rw [hstep] at h
      refine ih r1 t ?_ h
      cases op with
      | insereOp k => exact hi r k r1 hP hstep
      | removeOp k => exact hr r k r1 hP hstep

/-! ## C4, amended claim -/

/-- C4 as amended: after every sequence of public mutating calls that
returns normally, every node with at least one child carries the cached
height `1 + max` of its children's recomputed heights, and every leaf
carries a cached height of `0` or `1`; in particular a newly created leaf
(the `No(chave)` built by `_insere` at an absent position) has cached
height `1` — the dataclass default — not `0`. -/
theorem cache_disciplina (ops : List Op) (t : No)
    (h : aplicaOps ops = some t) :
    CacheInv t ∧
    ∀ ch : Int, _insere .nulo ch = some (.no ch .nulo .nulo 1) := by
  refine ⟨?_, fun ch => rfl⟩
  refine aplicaOpsAux_preserva ?_ ?_ ops .nulo t trivial h
  · exact fun r k t' hP hstep => _insere_cacheInv r k hP t' hstep
  · exact fun r k t' hP hstep => _remove_cacheInv r [] k hP t' hstep

/-- Closed instance of `cache_disciplina`: the tree left by the single
call `insere 10` satisfies the cache discipline (with cached height `1`
at the leaf). -/
theorem cache_disciplina_witness :
    CacheInv (.no 10 .nulo .nulo 1) ∧
    _insere .nulo 7 = some (.no 7 .nulo .nulo 1) := by
  have h := cache_disciplina [.insereOp 10] (.no 10 .nulo .nulo 1) (by decide)
  exact ⟨h.1, h.2 7⟩

theorem length_emOrdem : ∀ t : No, (emOrdem t).length = tamanho t := by
  intro t
  induction t with
  | nulo => rfl
  | no c e d h ihe ihd =>
    simp only [emOrdem, tamanho, List.length_append, List.length_cons, ihe, ihd]
    omega

theorem k_esimo_guarda : ∀ (t : No) (k c : Int) (r : Option Int), k ≤ c →
    _k_esimo_maior t k (c, r) = (c, r) := by
  intro t k c r h
  cases t with
  | nulo => rfl
  | no c0 e d h0 =>
    simp only [_k_esimo_maior]
    rw [if_pos (show (c, r).1 ≥ k from h)]

theorem k_esimo_spec : ∀ (t : No) (k c : Int) (r : Option Int), c < k →
    _k_esimo_maior t k (c, r) =
      if k ≤ c + (tamanho t : Int) then
        (k, some (((emOrdem t).reverse).getD (k - c - 1).toNat 0))
      else (c + (tamanho t : Int), r) := by
  intro t
  induction t with
  | nulo =>
    intro k c r hck
    rw [if_neg (by simp only [tamanho]; push_cast; omega)]
    simp [_k_esimo_maior, tamanho]
  | no c0 e d h0 ihe ihd =>
    intro k c r hck
    have hlen_d : ((emOrdem d).reverse.length : Int) = (tamanho d : Int) := by
      rw [List.length_reverse, length_emOrdem]
    have hlen_e : ((emOrdem e).reverse.length : Int) = (tamanho e : Int) := by
      rw [List.length_reverse, length_emOrdem]
    have htam : (tamanho (.no c0 e d h0) : Int) =
        (tamanho e : Int) + (tamanho d : Int) + 1 := by
      simp only [tamanho]; push_cast; omega
    have hrev : (emOrdem (.no c0 e d h0)).reverse =
        ((emOrdem d).reverse ++ [c0]) ++ (emOrdem e).reverse := by
      simp [emOrdem, List.reverse_append]
    simp only [_k_esimo_maior]
    rw [if_neg (show ¬((c, r).1 ≥ k) from by simp only [ge_iff_le]; omega)]
    rw [ihd k c r hck]
    rcases le_or_lt k (c + (tamanho d : Int)) with hkd | hkd
    · rw [if_pos hkd]
      rw [if_neg (show ¬((k, some (((emOrdem d).reverse).getD
            (k - c - 1).toNat 0)).1 < k) from by simp)]
      rw [if_pos (show k ≤ c + (tamanho (.no c0 e d h0) : Int) from by omega)]
      simp only [Prod.mk.injEq, Option.some.injEq, true_and]
      rw [hrev]
      rw [List.getD_append _ _ _ _ (by
        simp only [List.length_append, List.length_singleton]
        omega)]
      rw [List.getD_append _ _ _ _ (by omega)]
    · rw [if_neg (show ¬(k ≤ c + (tamanho d : Int)) from by omega)]
      rw [if_pos (show (c + (tamanho d : Int), r).1 < k from by
        simp only []
        omega)]
      rcases eq_or_ne (c + (tamanho d : Int) + 1) k with heq | hne
      · rw [if_pos (show (c + (tamanho d : Int), r).1 + 1 = k from heq)]
        rw [if_pos (show k ≤ c + (tamanho (.no c0 e d h0) : Int) from by omega)]
        simp only [Prod.mk.injEq, Option.some.injEq]
        refine ⟨by omega, ?_⟩
        rw [hrev]
        rw [List.getD_append _ _ _ _ (by
          simp only [List.length_append, List.length_singleton]
          omega)]
        rw [List.getD_append_right _ _ _ _ (by omega)]
        have h0idx : (k - c - 1).toNat - (emOrdem d).reverse.length = 0 := by
          omega
        rw [h0idx]
        rfl
      · rw [if_neg (show ¬((c + (tamanho d : Int), r).1 + 1 = k) from hne)]
        show _k_esimo_maior e k (c + (tamanho d : Int) + 1, r) = _
        rw [ihe k (c + (tamanho d : Int) + 1) r (by omega)]
        rcases le_or_lt k (c + (tamanho d : Int) + 1 + (tamanho e : Int))
          with hke | hke
        · rw [if_pos hke, if_pos (by omega)]
          simp only [Prod.mk.injEq, Option.some.injEq, true_and]
          rw [hrev]
          rw [List.getD_append_right _ _ _ _ (by
            simp only [List.length_append, List.length_singleton]
            omega)]
          have hidx : (k - c - 1).toNat -
              ((emOrdem d).reverse ++ [c0]).length =
              (k - (c + (tamanho d : Int) + 1) - 1).toNat := by
            simp only [List.length_append, List.length_singleton]
            omega
          rw [hidx]
        · rw [if_neg (by omega), if_neg (by omega)]
          simp only [Prod.mk.injEq, and_true]
          omega

/-! ## C6 -/

/-- C6: confirmed.  On any tree whose in-order key sequence is
non-decreasing (the BST invariant), the reverse in-order sequence is the
descending sort of the stored keys — sorted non-increasing and a
permutation of them — and `k_esimo_maior` returns exactly its `k`-th
entry (1-indexed, `k = 1` the maximum) for `1 ≤ k ≤ n`, and `none` — not
an error — for every `k < 1` or `k > n`. -/
theorem k_esimo_maior_decrescente (t : No)
    (hord : List.Sorted (· ≤ ·) (emOrdem t)) :
    List.Sorted (· ≥ ·) ((emOrdem t).reverse) ∧
    ((emOrdem t).reverse).Perm (emOrdem t) ∧
    ∀ k : Int, k_esimo_maior t k =
      if 1 ≤ k ∧ k ≤ (tamanho t : Int) then
        some (((emOrdem t).reverse).getD (k - 1).toNat 0)
      else none := by
  refine ⟨List.pairwise_reverse.mpr hord, List.reverse_perm _, ?_⟩
  intro k
  rcases le_or_lt k 0 with hk0 | hk1
  · show (_k_esimo_maior t k (0, none)).2 = _
    rw [k_esimo_guarda t k 0 none hk0]
    rw [if_neg (show ¬(1 ≤ k ∧ k ≤ (tamanho t : Int)) from by omega)]
  · show (_k_esimo_maior t k (0, none)).2 = _
    rw [k_esimo_spec t k 0 none hk1]
    rcases le_or_lt k (tamanho t : Int) with hkt | hkt
    · rw [if_pos (show k ≤ 0 + (tamanho t : Int) from by omega)]
      rw [if_pos (show 1 ≤ k ∧ k ≤ (tamanho t : Int) from ⟨by omega, hkt⟩)]
      have hidx : k - 0 - 1 = k - 1 := by omega
      rw [hidx]
    · rw [if_neg (show ¬(k ≤ 0 + (tamanho t : Int)) from by omega)]
      rw [if_neg (show ¬(1 ≤ k ∧ k ≤ (tamanho t : Int)) from by omega)]

/-- Closed instance of `k_esimo_maior_decrescente` discharging its
BST-order hypothesis on a concrete tree. -/
theorem k_esimo_maior_decrescente_witness :
    List.Sorted (· ≤ ·) (emOrdem arvoreQuatro) ∧
    k_esimo_maior arvoreQuatro 1 = some 20 := by
  refine ⟨by decide, ?_⟩
  have h := (k_esimo_maior_decrescente arvoreQuatro (by decide)).2.2 1
  rw [h]
  decide
